import Mathlib

/-!
Shallow embedding of the core of the CryptopriceXmoonphase repository:
the moon-phase calculator (src/data_access/moon_calculator.py), the
date-keyed combine / price-change pipeline (src/data_processor.py) and
the correlation analyzer (src/correlation_analyzer.py).

Conventions of the embedding:
* A Python `datetime` is represented by its timestamp in seconds since
  the Unix epoch, as a rational number `ℚ` (Python datetimes have
  microsecond resolution, so every concrete datetime is such a rational;
  comparison of datetimes is comparison of timestamps).
* `datetime.date()` (the calendar day used as join key) is the floor of
  the timestamp divided by 86400, an integer day index.
* Python floats are modelled as exact rationals `ℚ`.
* `Optional[T]` is `Option T`; a function that can raise is `Except`.
-/

namespace CryptoMoon

/-- `CryptoPriceData` from src/data_access/bitcoin_client.py. -/
structure CryptoPriceData where
  date : ℚ
  open_price : ℚ
  high_price : ℚ
  low_price : ℚ
  close_price : ℚ
  volume : ℚ
  symbol : String
deriving DecidableEq

/-- `MoonPhaseData` from src/data_access/moon_calculator.py. -/
structure MoonPhaseData where
  date : ℚ
  phase_percentage : ℚ
deriving DecidableEq

/-- `MoonPhaseData.is_full_moon`: illumination strictly above 98%. -/
def MoonPhaseData.is_full_moon (m : MoonPhaseData) : Bool :=
  m.phase_percentage > 98

/-- `CombinedDataPoint` from src/data_processor.py.  `crypto_data` and
`moon_data` are `Option`s because the Python code guards both fields
against `None` (e.g. `if not data_point.crypto_data`). -/
structure CombinedDataPoint where
  date : ℚ
  crypto_data : Option CryptoPriceData
  moon_data : Option MoonPhaseData
  price_change : Option ℚ := none
deriving DecidableEq

/-- `datetime.date()`: the calendar day index of a timestamp. -/
def dateOf (t : ℚ) : ℤ := ⌊t / 86400⌋

/-! ## MoonPhaseCalculator (src/data_access/moon_calculator.py) -/

/-- `NEW_MOON_REFERENCE = datetime(2000, 1, 6, 18, 14, 0)` as epoch
seconds: 10962 days from 1970-01-01 plus 18:14:00. -/
def NEW_MOON_REFERENCE : ℚ := 947182440

/-- `LUNAR_CYCLE_DAYS = 29.530588853`. -/
def LUNAR_CYCLE_DAYS : ℚ := 29530588853 / 1000000000

/-- `days_since_reference = time_diff.total_seconds() / (24 * 3600)`. -/
def days_since_reference (t : ℚ) : ℚ := (t - NEW_MOON_REFERENCE) / (24 * 3600)

/-- `cycles_elapsed = days_since_reference / self.LUNAR_CYCLE_DAYS`. -/
def cycles_elapsed (t : ℚ) : ℚ := days_since_reference t / LUNAR_CYCLE_DAYS

/-- `cycle_position = cycles_elapsed - math.floor(cycles_elapsed)`. -/
def cycle_position (t : ℚ) : ℚ := cycles_elapsed t - ⌊cycles_elapsed t⌋

/-- The two-branch waxing/waning conversion of the cycle position to a
raw percentage (lines 66-71 of moon_calculator.py). -/
def phase_percentage_raw (t : ℚ) : ℚ :=
  if cycle_position t ≤ 1/2 then cycle_position t * 200
  else (1 - cycle_position t) * 200

/-- `phase_percentage = max(0.0, min(100.0, phase_percentage))`. -/
def phase_percentage (t : ℚ) : ℚ := max 0 (min 100 (phase_percentage_raw t))

/-- `MoonPhaseCalculator.calculate_moon_phase`.  The whole body sits in a
`try` block whose `except Exception` handler returns `None`; in
particular the `raise ValueError("Date cannot be None")` for a `None`
date is caught by that very handler, so the observable behaviour for a
`None` date is a returned `None`, not a raised error. -/
def calculate_moon_phase : Option ℚ → Option MoonPhaseData
  | none => none
  | some t => some { date := t, phase_percentage := phase_percentage t }

/-- Modelled from the claim wording of C1: the triangular illumination
model as a function of the cycle position, clamped to [0, 100]. -/
def triangular_model (cp : ℚ) : ℚ :=
  max 0 (min 100 (if cp ≤ 1/2 then cp * 200 else (1 - cp) * 200))

/-! ## DataProcessor (src/data_processor.py) -/

/-- The sort key used by `combined_points.sort(key=lambda x: x.date)` and
`sorted(data_to_process, key=lambda x: x.date)`: ascending datetime. -/
def dateLE (a b : CombinedDataPoint) : Bool := a.date ≤ b.date

/-- The `moon_lookup` dictionary of `combine_data`, keyed by calendar
day with last-write-wins on duplicate days: looking up key `k` yields
the last element of `moon_data` whose calendar day is `k`. -/
def moon_lookup (moon_data : List MoonPhaseData) (k : ℤ) : Option MoonPhaseData :=
  moon_data.reverse.find? fun m => dateOf m.date == k

/-- The matching loop of `combine_data`: each price bar whose calendar
day has a moon record is paired with it, the rest are dropped. -/
def join_points (crypto_data : List CryptoPriceData) (moon_data : List MoonPhaseData) :
    List CombinedDataPoint :=
  crypto_data.filterMap fun c =>
    (moon_lookup moon_data (dateOf c.date)).map fun m =>
      { date := c.date, crypto_data := some c, moon_data := some m, price_change := none }

/-- `DataProcessor.combine_data`: empty guards, inner join on the
calendar day, then a stable sort by date (Python `list.sort` is stable). -/
def combine_data (crypto_data : List CryptoPriceData) (moon_data : List MoonPhaseData) :
    List CombinedDataPoint :=
  if crypto_data = [] then []
  else if moon_data = [] then []
  else (join_points crypto_data moon_data).mergeSort dateLE

/-- Lines 139-145 of data_processor.py: the change is computed only when
`previous_price is not None and previous_price != 0`. -/
def price_change_of (previous_price : Option ℚ) (current_price : ℚ) : Option ℚ :=
  match previous_price with
  | some pv => if pv ≠ 0 then some ((current_price - pv) / pv * 100) else none
  | none => none

/-- The main loop of `calculate_price_changes`: points with missing
crypto data are skipped (and do not update `previous_price`); every
surviving point gets its `price_change` set and becomes the new
`previous_price` source. -/
def apply_changes : Option ℚ → List CombinedDataPoint → List CombinedDataPoint
  | _, [] => []
  | prev, p :: rest =>
    match p.crypto_data with
    | none => apply_changes prev rest
    | some c =>
      { p with price_change := price_change_of prev c.close_price } ::
        apply_changes (some c.close_price) rest

/-- `DataProcessor.calculate_price_changes` on an explicit argument:
empty guard, stable sort by date, then the annotation pass. -/
def calculate_price_changes (l : List CombinedDataPoint) : List CombinedDataPoint :=
  if l = [] then [] else apply_changes none (l.mergeSort dateLE)

/-- `DataProcessor.get_data_by_date_range`, as a function of the stored
`_combined_data` list: the empty-store check precedes the inverted-range
check, so an inverted range only raises when the store is non-empty. -/
def get_data_by_date_range (stored : List CombinedDataPoint)
    (start_date end_date : ℚ) : Except String (List CombinedDataPoint) :=
  if stored = [] then .ok []
  else if start_date > end_date then
    .error "Start date must be before or equal to end date"
  else .ok (stored.filter fun p => decide (start_date ≤ p.date ∧ p.date ≤ end_date))

/-! ## CorrelationAnalyzer (src/correlation_analyzer.py) -/

/-- `AnalysisResults` from src/correlation_analyzer.py. -/
structure AnalysisResults where
  full_moon_avg_change : ℚ
  normal_day_avg_change : ℚ
  full_moon_count : ℕ
  normal_day_count : ℕ
  total_data_points : ℕ
deriving DecidableEq

/-- `CorrelationAnalyzer._calculate_average`: `statistics.mean` guarded
by an empty check that returns 0.0. -/
def calculate_average (values : List ℚ) : ℚ :=
  if values = [] then 0 else values.sum / values.length

/-- The `valid_data` filter of `analyze_correlation` (lines 75-80):
price change computed, crypto data present, moon data present. -/
def isValidPoint (p : CombinedDataPoint) : Bool :=
  p.price_change.isSome && p.crypto_data.isSome && p.moon_data.isSome

/-- `point.moon_data.is_full_moon` as used on valid points (whose
`moon_data` is never `none`). -/
def pointIsFullMoon (p : CombinedDataPoint) : Bool :=
  match p.moon_data with
  | some m => m.is_full_moon
  | none => false

/-- `CorrelationAnalyzer.analyze_correlation`: zero result on empty
input; on input with no valid point, zero counts but
`total_data_points = len(combined_data)`; otherwise bucket by
`is_full_moon` and average each bucket. -/
def analyze_correlation (combined_data : List CombinedDataPoint) : AnalysisResults :=
  if combined_data = [] then
    { full_moon_avg_change := 0, normal_day_avg_change := 0,
      full_moon_count := 0, normal_day_count := 0, total_data_points := 0 }
  else
    let valid_data := combined_data.filter isValidPoint
    if valid_data = [] then
      { full_moon_avg_change := 0, normal_day_avg_change := 0,
        full_moon_count := 0, normal_day_count := 0,
        total_data_points := combined_data.length }
    else
      let full_moon_changes :=
        (valid_data.filter pointIsFullMoon).filterMap CombinedDataPoint.price_change
      let normal_day_changes :=
        (valid_data.filter fun p => !pointIsFullMoon p).filterMap CombinedDataPoint.price_change
      { full_moon_avg_change := calculate_average full_moon_changes,
        normal_day_avg_change := calculate_average normal_day_changes,
        full_moon_count := full_moon_changes.length,
        normal_day_count := normal_day_changes.length,
        total_data_points := valid_data.length }

/-! ## Helper lemmas about the annotation pass -/

/-- Forgetting the `price_change` annotation of a point. -/
def stripChange (p : CombinedDataPoint) : CombinedDataPoint := { p with price_change := none }

theorem apply_changes_strip (prev : Option ℚ) (l : List CombinedDataPoint) :
    (apply_changes prev l).map stripChange
      = (l.filter fun p => p.crypto_data.isSome).map stripChange := by
  induction l generalizing prev with
  | nil => rfl
  | cons p rest ih =>
    cases hc : p.crypto_data with
    | none => simp [apply_changes, hc, List.filter, ih]
    | some c => simp [apply_changes, hc, List.filter, ih, stripChange]

theorem dateLE_trans : ∀ a b c : CombinedDataPoint, dateLE a b → dateLE b c → dateLE a c := by
  intro a b c hab hbc
  simp only [dateLE, decide_eq_true_eq] at *
  exact le_trans hab hbc

theorem dateLE_total : ∀ a b : CombinedDataPoint, dateLE a b || dateLE b a := by
  intro a b
  simp only [dateLE, Bool.or_eq_true, decide_eq_true_eq]
  exact le_total a.date b.date

theorem apply_changes_crypto_isSome (prev : Option ℚ) (l : List CombinedDataPoint) :
    ∀ p ∈ apply_changes prev l, p.crypto_data.isSome := by
  induction l generalizing prev with
  | nil => intro p h; simp [apply_changes] at h
  | cons q rest ih =>
    intro p h
    cases hq : q.crypto_data with
    | none =>
      simp only [apply_changes, hq] at h
      exact ih prev p h
    | some c0 =>
      simp only [apply_changes, hq, List.mem_cons] at h
      rcases h with h | h
      · subst h; simp [hq]
      · exact ih (some c0.close_price) p h

theorem apply_changes_head (prev : Option ℚ) (l : List CombinedDataPoint) :
    ∀ p c, (apply_changes prev l).head? = some p → p.crypto_data = some c →
      p.price_change = price_change_of prev c.close_price := by
  induction l generalizing prev with
  | nil => intro p c h _; simp [apply_changes] at h
  | cons q rest ih =>
    intro p c h hc
    cases hq : q.crypto_data with
    | none =>
      simp only [apply_changes, hq] at h
      exact ih prev p c h hc
    | some c0 =>
      simp only [apply_changes, hq, List.head?_cons, Option.some.injEq] at h
      subst h
      simp only [hq, Option.some.injEq] at hc
      subst hc
      rfl

theorem apply_changes_chain (l : List CombinedDataPoint) :
    ∀ (prev : Option ℚ) (i : ℕ) (p q : CombinedDataPoint) (c c' : CryptoPriceData),
      (apply_changes prev l)[i]? = some p → (apply_changes prev l)[i+1]? = some q →
      p.crypto_data = some c → q.crypto_data = some c' →
      q.price_change = price_change_of (some c.close_price) c'.close_price := by
  induction l with
  | nil => intro prev i p q c c' h1 _ _ _; simp [apply_changes] at h1
  | cons r rest ih =>
    intro prev i p q c c' h1 h2 hc hc'
    cases hr : r.crypto_data with
    | none =>
      simp only [apply_changes, hr] at h1 h2
      exact ih prev i p q c c' h1 h2 hc hc'
    | some c0 =>
      match i with
      | 0 =>
        simp only [apply_changes, hr, List.getElem?_cons_zero, List.getElem?_cons_succ,
          Option.some.injEq] at h1 h2
        subst h1
        simp only [hr, Option.some.injEq] at hc
        subst hc
        exact apply_changes_head (some c0.close_price) rest q c'
          (by rw [List.head?_eq_getElem?]; exact h2) hc'
      | Nat.succ i =>
        simp only [apply_changes, hr, List.getElem?_cons_succ] at h1 h2
        exact ih (some c0.close_price) i p q c c' h1 h2 hc hc'

/-! ## Helper lemmas about the date-keyed join -/

theorem moon_lookup_mem {m : List MoonPhaseData} {k : ℤ} {mm : MoonPhaseData}
    (h : moon_lookup m k = some mm) : mm ∈ m ∧ dateOf mm.date = k := by
  unfold moon_lookup at h
  refine ⟨List.mem_reverse.mp (List.mem_of_find?_eq_some h), ?_⟩
  have := List.find?_some h
  simpa using this

theorem join_points_nil_moon (c : List CryptoPriceData) : join_points c [] = [] := by
  simp [join_points, moon_lookup]

theorem join_points_mem (c : List CryptoPriceData) (m : List MoonPhaseData)
    (p : CombinedDataPoint) (hp : p ∈ join_points c m) :
    (∃ cc ∈ c, cc.date = p.date) ∧ ∃ mm ∈ m, dateOf mm.date = dateOf p.date := by
  simp only [join_points, List.mem_filterMap] at hp
  obtain ⟨cc, hcc, heq⟩ := hp
  cases hl : moon_lookup m (dateOf cc.date) with
  | none => rw [hl] at heq; simp at heq
  | some mm =>
    rw [hl] at heq
    simp only [Option.map_some', Option.some.injEq] at heq
    obtain ⟨hmem, hday⟩ := moon_lookup_mem hl
    subst heq
    exact ⟨⟨cc, hcc, rfl⟩, ⟨mm, hmem, hday⟩⟩

theorem join_points_days_sublist (c : List CryptoPriceData) (m : List MoonPhaseData) :
    List.Sublist ((join_points c m).map fun p => dateOf p.date)
      (c.map fun cc => dateOf cc.date) := by
  induction c with
  | nil => simp [join_points]
  | cons a rest ih =>
    simp only [join_points, List.filterMap_cons] at ih ⊢
    cases hl : moon_lookup m (dateOf a.date) with
    | none =>
      simp only [hl, Option.map_none', List.map_cons]
      exact ih.cons _
    | some mm =>
      simp only [hl, Option.map_some', List.map_cons]
      exact ih.cons₂ _

theorem join_points_length_le_moons (c : List CryptoPriceData) (m : List MoonPhaseData)
    (hd : c.Pairwise fun a b => dateOf a.date ≠ dateOf b.date) :
    (join_points c m).length ≤ m.length := by
  have hcnd : (c.map fun cc => dateOf cc.date).Nodup := List.pairwise_map.mpr hd
  have hnd : ((join_points c m).map fun p => dateOf p.date).Nodup :=
    List.Nodup.sublist (join_points_days_sublist c m) hcnd
  have hsub : ((join_points c m).map fun p => dateOf p.date) ⊆
      m.map fun mm => dateOf mm.date := by
    intro x hx
    obtain ⟨p, hp, hpx⟩ := List.mem_map.mp hx
    obtain ⟨-, mm, hmm, hmday⟩ := join_points_mem c m p hp
    exact List.mem_map.mpr ⟨mm, hmm, by rw [hmday, hpx]⟩
  have := (List.subperm_of_subset hnd hsub).length_le
  simpa using this

/-! ## Helper lemmas about the phase computation -/

theorem cycle_position_eq_fract (t : ℚ) :
    cycle_position t = Int.fract (cycles_elapsed t) := rfl

theorem cycles_elapsed_add_cycle (t : ℚ) :
    cycles_elapsed (t + LUNAR_CYCLE_DAYS * (24 * 3600)) = cycles_elapsed t + 1 := by
  unfold cycles_elapsed days_since_reference LUNAR_CYCLE_DAYS
  field_simp
  ring

theorem cycle_position_add_cycle (t : ℚ) :
    cycle_position (t + LUNAR_CYCLE_DAYS * (24 * 3600)) = cycle_position t := by
  rw [cycle_position_eq_fract, cycle_position_eq_fract, cycles_elapsed_add_cycle,
    Int.fract_add_one]

/-! ## Helper lemmas about the analyzer -/

theorem length_filterMap_price_change (l : List CombinedDataPoint)
    (h : ∀ q ∈ l, q.price_change.isSome) :
    (l.filterMap CombinedDataPoint.price_change).length = l.length := by
  induction l with
  | nil => rfl
  | cons q rest ih =>
    have hq := h q (List.mem_cons_self q rest)
    obtain ⟨v, hv⟩ := Option.isSome_iff_exists.mp hq
    simp [List.filterMap_cons, hv, ih fun r hr => h r (List.mem_cons_of_mem _ hr)]

theorem calculate_average_perm {v₁ v₂ : List ℚ} (h : List.Perm v₁ v₂) :
    calculate_average v₁ = calculate_average v₂ := by
  unfold calculate_average
  by_cases h1 : v₁ = []
  · have h2 : v₂ = [] := by subst h1; exact h.symm.eq_nil
    rw [h1, h2]
  · have h2 : v₂ ≠ [] := fun he => h1 (by rw [he] at h; exact h.eq_nil)
    rw [if_neg h1, if_neg h2, h.sum_eq, h.length_eq]

/-- A sort with `mergeSort` leaves a filtered-out class untouched when
all its members compare `dateLE` with each other (the stable-tie case:
all elements of the class share one date). -/
theorem mergeSort_filter_eq_of_all (l : List CombinedDataPoint) (p : CombinedDataPoint → Bool)
    (hle : ∀ a b, p a → p b → dateLE a b) :
    (l.mergeSort dateLE).filter p = l.filter p := by
  have hpair : (l.filter p).Pairwise (fun a b => dateLE a b = true) :=
    List.pairwise_of_forall_mem_list fun a ha b hb =>
      hle a b (List.of_mem_filter ha) (List.of_mem_filter hb)
  have hsub : List.Sublist (l.filter p) (l.mergeSort dateLE) :=
    List.sublist_mergeSort dateLE_trans dateLE_total hpair (List.filter_sublist l)
  have hsub2 : List.Sublist ((l.filter p).filter p) ((l.mergeSort dateLE).filter p) :=
    hsub.filter p
  rw [List.filter_eq_self.mpr fun a ha => List.of_mem_filter ha] at hsub2
  have hperm : List.Perm ((l.mergeSort dateLE).filter p) (l.filter p) :=
    (List.mergeSort_perm l dateLE).filter p
  exact (hsub2.eq_of_length hperm.length_eq.symm).symm

/-! ## The claims -/

/-- C1: for every date, the calculator's illumination percentage equals
the triangular model of the cycle position, the cycle position lies in
[0, 1) (non-negative also before the reference new moon), and the
illumination percentage lies in [0, 100]. -/
theorem moon_phase_matches_triangular_model (t : ℚ) :
    0 ≤ cycle_position t ∧ cycle_position t < 1 ∧
    phase_percentage t = triangular_model (cycle_position t) ∧
    0 ≤ phase_percentage t ∧ phase_percentage t ≤ 100 := by
  refine ⟨?_, ?_, rfl, ?_, ?_⟩
  · rw [cycle_position_eq_fract]; exact Int.fract_nonneg _
  · rw [cycle_position_eq_fract]; exact Int.fract_lt_one _
  · exact le_max_left 0 _
  · exact max_le (by norm_num) (min_le_left _ _)

/-- C2 (amended): combine is an inner join whose output length is at
most the number of price bars; every output point's calendar date occurs
in both inputs; the output is sorted ascending by date; same-date points
survive in their stable arrival order (the filter to any fixed date is
exactly the pre-sort join stream's filter); and the `min` bound on the
length holds once the price bars' calendar dates are pairwise distinct
(duplicate-date bars can each match the same moon record, which defeats
the unconditional `min` bound). -/
theorem combine_is_inner_join (crypto_data : List CryptoPriceData)
    (moon_data : List MoonPhaseData) :
    (combine_data crypto_data moon_data).length ≤ crypto_data.length ∧
    (∀ p ∈ combine_data crypto_data moon_data,
      (∃ c ∈ crypto_data, c.date = p.date) ∧
      ∃ m ∈ moon_data, dateOf m.date = dateOf p.date) ∧
    (combine_data crypto_data moon_data).Pairwise (fun a b => a.date ≤ b.date) ∧
    (∀ d : ℚ, (combine_data crypto_data moon_data).filter (fun p => decide (p.date = d))
      = (join_points crypto_data moon_data).filter (fun p => decide (p.date = d))) ∧
    (crypto_data.Pairwise (fun a b => dateOf a.date ≠ dateOf b.date) →
      (combine_data crypto_data moon_data).length
        ≤ min crypto_data.length moon_data.length) := by
  by_cases hc : crypto_data = []
  · subst hc
    refine ⟨by simp [combine_data], ?_, ?_, ?_, ?_⟩ <;>
      simp [combine_data, join_points]
  by_cases hm : moon_data = []
  · subst hm
    unfold combine_data
    rw [if_neg hc, if_pos rfl]
    refine ⟨by simp, by simp, by simp, ?_, by simp⟩
    intro d
    rw [join_points_nil_moon]
  unfold combine_data
  rw [if_neg hc, if_neg hm]
  refine ⟨?_, ?_, ?_, ?_, ?_⟩
  · rw [List.length_mergeSort]
    exact le_trans (List.length_filterMap_le _ _) (le_refl _)
  · intro p hp
    rw [List.mem_mergeSort] at hp
    exact join_points_mem crypto_data moon_data p hp
  · have hs : ((join_points crypto_data moon_data).mergeSort dateLE).Pairwise
        (fun a b => dateLE a b = true) :=
      List.sorted_mergeSort dateLE_trans dateLE_total _
    refine hs.imp ?_
    intro a b hab
    simpa [dateLE] using hab
  · intro d
    refine mergeSort_filter_eq_of_all _ _ ?_
    intro a b ha hb
    simp only [decide_eq_true_eq] at ha hb
    simp [dateLE, ha, hb]
  · intro hd
    rw [List.length_mergeSort]
    exact le_min (List.length_filterMap_le _ _)
      (join_points_length_le_moons crypto_data moon_data hd)

/-- Two price bars on the same calendar day (timestamps 0 and 1 of
1970-01-01) and a single moon record for that day. -/
def dupBarA : CryptoPriceData := ⟨0, 1, 1, 1, 1, 0, "BTC"⟩

def dupBarB : CryptoPriceData := ⟨1, 2, 2, 2, 2, 0, "BTC"⟩

def dupMoon : MoonPhaseData := ⟨0, 50⟩

/-- C2 counterexample: with two price bars sharing one calendar day and
a single moon record for that day, both bars match, so the output has
length 2 while `min(len(prices), len(moons)) = 1`. -/
theorem combine_min_length_counterexample :
    ¬ ((combine_data [dupBarA, dupBarB] [dupMoon]).length
        ≤ min [dupBarA, dupBarB].length [dupMoon].length) := by
  have h2 : (combine_data [dupBarA, dupBarB] [dupMoon]).length = 2 := by
    simp only [combine_data]
    rw [if_neg (by simp), if_neg (by simp), List.length_mergeSort]
    simp [join_points, moon_lookup, dateOf, List.filterMap, List.find?,
      dupBarA, dupBarB, dupMoon]
    norm_num
  rw [h2]
  simp

/-- C3: the annotated output of `calculate_price_changes` has
`price_change = none` on its chronologically first point, and each later
point's `price_change` is the day-over-day formula against the previous
surviving point's close when that close is nonzero, `none` when it is
zero — the previous close advances to the current point's close after
every point either way, which is what the index-chained statement
expresses. -/
theorem price_changes_formula (l : List CombinedDataPoint) :
    (∀ p, (calculate_price_changes l).head? = some p → p.price_change = none) ∧
    (∀ (i : ℕ) (p q : CombinedDataPoint) (c c' : CryptoPriceData),
      (calculate_price_changes l)[i]? = some p →
      (calculate_price_changes l)[i+1]? = some q →
      p.crypto_data = some c → q.crypto_data = some c' →
      q.price_change = if c.close_price ≠ 0 then
          some ((c'.close_price - c.close_price) / c.close_price * 100) else none) := by
  by_cases he : l = []
  · subst he
    constructor
    · intro p h; simp [calculate_price_changes] at h
    · intro i p q c c' h1 _ _ _; simp [calculate_price_changes] at h1
  · unfold calculate_price_changes
    rw [if_neg he]
    constructor
    · intro p h
      cases hc : p.crypto_data with
      | none =>
        exfalso
        have hmem : p ∈ apply_changes none (l.mergeSort dateLE) := by
          cases hl : apply_changes none (l.mergeSort dateLE) with
          | nil => rw [hl] at h; simp at h
          | cons a rest =>
            rw [hl] at h
            simp only [List.head?_cons, Option.some.injEq] at h
            subst h
            exact List.mem_cons_self _ _
        have := apply_changes_crypto_isSome none (l.mergeSort dateLE) p hmem
        rw [hc] at this
        simp at this
      | some c =>
        have := apply_changes_head none (l.mergeSort dateLE) p c h hc
        simpa [price_change_of] using this
    · intro i p q c c' h1 h2 hc hc'
      have := apply_changes_chain (l.mergeSort dateLE) none i p q c c' h1 h2 hc hc'
      simpa [price_change_of] using this

/-- C4 counterexample: one combined point whose `price_change` is
`none`. The analyzer's no-valid-data branch reports
`total_data_points = len(combined_data) = 1` with both bucket counts 0,
so the partition equation fails. -/
def partitionBadPoint : CombinedDataPoint :=
  { date := 0, crypto_data := some ⟨0, 1, 1, 1, 1, 0, "BTC"⟩,
    moon_data := some ⟨0, 50⟩, price_change := none }

theorem bucket_partition_counterexample :
    ¬ ((analyze_correlation [partitionBadPoint]).full_moon_count
        + (analyze_correlation [partitionBadPoint]).normal_day_count
        = (analyze_correlation [partitionBadPoint]).total_data_points) := by
  have h : analyze_correlation [partitionBadPoint] =
      { full_moon_avg_change := 0, normal_day_avg_change := 0,
        full_moon_count := 0, normal_day_count := 0, total_data_points := 1 } := by
    simp [analyze_correlation, isValidPoint, partitionBadPoint, List.filter]
  rw [h]
  simp

/-- C4 (amended): `full_moon_count + normal_day_count =
total_data_points` holds whenever the input is empty or at least one
point passes the validity filter (computed price change, crypto data and
moon data all present); only the branch for a non-empty input with no
valid point breaks it, by reporting the raw input length as the total. -/
theorem bucket_partition_amended (l : List CombinedDataPoint)
    (h : l = [] ∨ ∃ p ∈ l, isValidPoint p) :
    (analyze_correlation l).full_moon_count + (analyze_correlation l).normal_day_count
      = (analyze_correlation l).total_data_points := by
  rcases h with h | ⟨p, hp, hv⟩
  · subst h; rfl
  · have hne : l ≠ [] := List.ne_nil_of_mem hp
    have hvne : l.filter isValidPoint ≠ [] :=
      List.ne_nil_of_mem (List.mem_filter.mpr ⟨hp, hv⟩)
    have hsome : ∀ q ∈ l.filter isValidPoint, q.price_change.isSome := by
      intro q hq
      have h2 := (List.mem_filter.mp hq).2
      simp only [isValidPoint, Bool.and_eq_true] at h2
      exact h2.1.1
    simp only [analyze_correlation]
    rw [if_neg hne, if_neg hvne]
    simp only
    rw [length_filterMap_price_change _ fun q hq => hsome q (List.mem_of_mem_filter hq),
        length_filterMap_price_change _ fun q hq => hsome q (List.mem_of_mem_filter hq)]
    exact (List.length_eq_length_filter_add pointIsFullMoon).symm

def partitionGoodPoint : CombinedDataPoint :=
  { date := 0, crypto_data := some ⟨0, 1, 1, 1, 1, 0, "BTC"⟩,
    moon_data := some ⟨0, 50⟩, price_change := some 5 }

theorem bucket_partition_amended_witness :
    (analyze_correlation [partitionGoodPoint]).full_moon_count
      + (analyze_correlation [partitionGoodPoint]).normal_day_count
      = (analyze_correlation [partitionGoodPoint]).total_data_points :=
  bucket_partition_amended [partitionGoodPoint]
    (Or.inr ⟨partitionGoodPoint, by simp, by simp [isValidPoint, partitionGoodPoint]⟩)

/-- C5: the calculator is total on every valid date (`some t` always
yields a `MoonPhaseData`), but for a null date the blanket
`except Exception` handler catches the function's own
`raise ValueError`, so `calculate_moon_phase(None)` RETURNS `None`
instead of raising as the spec (and the function's docstring, which
promises `Raises ValueError`) requires. -/
theorem calculate_moon_phase_null_returns_none :
    calculate_moon_phase none = none ∧
    ∀ t : ℚ, calculate_moon_phase (some t)
      = some { date := t, phase_percentage := phase_percentage t } :=
  ⟨rfl, fun _ => rfl⟩

/-- C6: analyzing an empty sequence returns the all-zero result, and the
average of an empty bucket is 0, not an error. -/
theorem analyze_empty_returns_zeros :
    analyze_correlation []
      = { full_moon_avg_change := 0, normal_day_avg_change := 0,
          full_moon_count := 0, normal_day_count := 0, total_data_points := 0 } ∧
    calculate_average [] = 0 :=
  ⟨rfl, rfl⟩

/-- C7: moving any date forward by one synodic month
(29.530588853 days, i.e. `LUNAR_CYCLE_DAYS * 24 * 3600` seconds) leaves
the illumination percentage within 1 percentage point — in this exact
model it is unchanged, so the difference is 0. -/
theorem phase_periodicity (t : ℚ) :
    |phase_percentage (t + LUNAR_CYCLE_DAYS * (24 * 3600)) - phase_percentage t| ≤ 1 := by
  unfold phase_percentage phase_percentage_raw
  rw [cycle_position_add_cycle]
  simp

/-- C8: the analysis result is invariant under permutation of the input
sequence: bucket membership is pointwise and averages and counts are
symmetric in their bucket. -/
theorem analyze_correlation_perm (l₁ l₂ : List CombinedDataPoint)
    (h : List.Perm l₁ l₂) :
    analyze_correlation l₁ = analyze_correlation l₂ := by
  unfold analyze_correlation
  by_cases h1 : l₁ = []
  · have h2 : l₂ = [] := by subst h1; exact h.symm.eq_nil
    rw [if_pos h1, if_pos h2]
  · have h2 : l₂ ≠ [] := fun he => h1 (by rw [he] at h; exact h.eq_nil)
    rw [if_neg h1, if_neg h2]
    have hv : List.Perm (l₁.filter isValidPoint) (l₂.filter isValidPoint) := h.filter _
    by_cases hv1 : l₁.filter isValidPoint = []
    · have hv2 : l₂.filter isValidPoint = [] := by rw [hv1] at hv; exact hv.symm.eq_nil
      rw [hv1, hv2]
      simp only [h.length_eq]
    · have hv2 : l₂.filter isValidPoint ≠ [] := fun he => hv1 (by rw [he] at hv; exact hv.eq_nil)
      simp only
      rw [if_neg hv1, if_neg hv2]
      have hfull := (hv.filter pointIsFullMoon).filterMap CombinedDataPoint.price_change
      have hnorm := (hv.filter fun p => !pointIsFullMoon p).filterMap
        CombinedDataPoint.price_change
      rw [calculate_average_perm hfull, calculate_average_perm hnorm,
        hfull.length_eq, hnorm.length_eq, hv.length_eq]

def permPointA : CombinedDataPoint :=
  { date := 0, crypto_data := some ⟨0, 1, 1, 1, 1, 0, "BTC"⟩,
    moon_data := some ⟨0, 99⟩, price_change := some 5 }

def permPointB : CombinedDataPoint :=
  { date := 86400, crypto_data := some ⟨86400, 2, 2, 2, 2, 0, "BTC"⟩,
    moon_data := some ⟨86400, 10⟩, price_change := some (-2) }

theorem analyze_correlation_perm_witness :
    analyze_correlation [permPointA, permPointB]
      = analyze_correlation [permPointB, permPointA] :=
  analyze_correlation_perm [permPointA, permPointB] [permPointB, permPointA]
    (List.Perm.swap permPointB permPointA [])

/-- C9: the annotation pass keeps exactly the (date-sorted) input points
that carry crypto price data — up to the recomputed `price_change`
field, which `stripChange` discards on both sides — so the output is in
ascending date order and never longer than the input. -/
theorem price_changes_drop_missing (l : List CombinedDataPoint) :
    (calculate_price_changes l).map stripChange
      = ((l.mergeSort dateLE).filter fun p => p.crypto_data.isSome).map stripChange ∧
    (calculate_price_changes l).Pairwise (fun a b => a.date ≤ b.date) ∧
    (calculate_price_changes l).length ≤ l.length := by
  by_cases he : l = []
  · subst he
    refine ⟨?_, ?_, ?_⟩ <;> simp [calculate_price_changes]
  · unfold calculate_price_changes
    rw [if_neg he]
    have hmap := apply_changes_strip none (l.mergeSort dateLE)
    refine ⟨hmap, ?_, ?_⟩
    · have hsorted : (l.mergeSort dateLE).Pairwise (fun a b => dateLE a b = true) :=
        List.sorted_mergeSort dateLE_trans dateLE_total l
      have hfs : ((l.mergeSort dateLE).filter fun p => p.crypto_data.isSome).Pairwise
          (fun a b => dateLE a b = true) :=
        List.Pairwise.sublist (List.filter_sublist _) hsorted
      have hp : (((l.mergeSort dateLE).filter fun p => p.crypto_data.isSome).map
          stripChange).Pairwise (fun a b => a.date ≤ b.date) := by
        rw [List.pairwise_map]
        refine hfs.imp ?_
        intro a b hab
        simpa [dateLE, stripChange] using hab
      rw [← hmap, List.pairwise_map] at hp
      refine hp.imp ?_
      intro a b hab
      simpa [stripChange] using hab
    · have hlen : ((apply_changes none (l.mergeSort dateLE)).map stripChange).length
          = (((l.mergeSort dateLE).filter fun p => p.crypto_data.isSome).map
              stripChange).length := by rw [hmap]
      simp only [List.length_map] at hlen
      calc (apply_changes none (l.mergeSort dateLE)).length
          = _ := hlen
        _ ≤ (l.mergeSort dateLE).length := (List.filter_sublist _).length_le
        _ = l.length := List.length_mergeSort l

/-- C10: a date-range query against an empty store returns an empty list
for every start/end pair, inverted ranges included; the `ValueError` for
`start_date > end_date` is reached only when stored data is non-empty,
because the empty-store early return precedes the range check. -/
theorem date_range_guard_order :
    (∀ s e : ℚ, get_data_by_date_range [] s e = Except.ok []) ∧
    (∀ (stored : List CombinedDataPoint) (s e : ℚ), stored ≠ [] → s > e →
      get_data_by_date_range stored s e =
        Except.error "Start date must be before or equal to end date") := by
  constructor
  · intro s e; rfl
  · intro stored s e hne hgt
    unfold get_data_by_date_range
    rw [if_neg hne, if_pos hgt]

end CryptoMoon
